import Mathlib

/-!
# Verification of the Kokoro-FastAPI TTS orchestration layer

Shallow embedding of `api/src/services/tts_service.py` (class `TTSService`).

External collaborators (the neural model `TTSModel.process_text` /
`TTSModel.generate_from_tokens`, the text normalizer `normalize_text`, the
chunker `chunker.split_text`) are modelled as components of an `Env` record:
the orchestrator consumes them through their interface only, exactly as the
source does.  The voice store (a directory of `<name>.pt` files read by
`torch.load` / written by `torch.save`) is modelled as a partial map from
file path to embedding.  Embeddings are lists of rationals (`torch.mean`
divides, so we need exact division); audio buffers are lists of integers
(1-D sample arrays); token sequences are lists of naturals.

Python exceptions are modelled with `Except`: an external call that raises
is a call returning `.error`; `TTSModel.generate_from_tokens` returning
`None` is `.ok none`.  Wall-clock timing (`processing_time`) and logging are
not modelled: neither affects control flow.  `cleanup()` invocations are
counted (field `cleanups` / event `Ev.cleanup`) so that the resource-release
guarantees of the `try/finally` blocks can be stated.
-/

set_option autoImplicit false

namespace TTS

/-- A voice embedding: a numeric tensor, modelled as a list of rationals. -/
abbrev Emb := List ℚ

/-- An audio buffer: a 1-D array of samples. -/
abbrev Audio := List ℤ

/-- A token sequence produced by `TTSModel.process_text`. -/
abbrev Tokens := List ℕ

/-- External collaborators of `TTSService`, consumed through their interfaces.
`processText c v` models `TTSModel.process_text(c, v)` where `v` is
`voice[0]`; a raising call is `.error msg`, a successful one returns the
token part of the `(phonemes, tokens)` pair (the orchestrator discards the
phonemes).  `generateFromTokens` models `TTSModel.generate_from_tokens`:
`.error` is a raise, `.ok none` is a `None` result, `.ok (some a)` an audio
buffer.  `normalizeText` models `normalize_text` (an empty result is the
falsy case) and `splitText` models `chunker.split_text` (finite, ordered,
restartable per the chunker contract). -/
structure Env where
  normalizeText : String → String
  splitText : String → List String
  processText : String → Char → Except String Tokens
  generateFromTokens : Tokens → Emb → ℚ → Except String (Option Audio)

/-- `TTSModel.VOICES_DIR` (the concrete directory string is irrelevant). -/
def VOICES_DIR : String := "voices"

/-- `os.path.join(TTSModel.VOICES_DIR, f"{voice_name}.pt")`. -/
def voiceFilePath (voiceName : String) : String :=
  VOICES_DIR ++ "/" ++ voiceName ++ ".pt"

/-- The voice store: the directory of embedding files, as a partial map from
file path to stored embedding.  `none` models a path for which
`os.path.exists` is false (and for which `torch.load` would raise). -/
abbrev Store := String → Option Emb

/-- `TTSService._get_voice_path`: return the path if the file exists. -/
def getVoicePath (store : Store) (voiceName : String) : Option String :=
  let voicePath := voiceFilePath voiceName
  if (store voicePath).isSome then some voicePath else none

/-! ## The voice cache (`_load_voice`)

`_load_voice` is `torch.load` memoized with
`@lru_cache(maxsize=settings.n_cache_voices)`.  The decorator's semantics
(memoize by exact argument, a hit moves the entry to most-recently-used, a
miss at capacity evicts the least-recently-used entry) are embedded as an
explicit association list ordered most-recently-used first. -/

/-- The LRU cache state of `_load_voice`: entries ordered most-recently-used
first, with a fixed capacity (`settings.n_cache_voices`). -/
structure LRUCache where
  capacity : ℕ
  entries : List (String × Emb)
deriving DecidableEq

/-- An empty cache of the given capacity. -/
def LRUCache.empty (capacity : ℕ) : LRUCache := ⟨capacity, []⟩

/-- The keys currently cached, most-recently-used first. -/
def LRUCache.keys (c : LRUCache) : List String := c.entries.map Prod.fst

/-- `_load_voice voice_path`: on a hit return the cached tensor and mark it
most-recently-used; on a miss read the store (`torch.load`), insert the new
entry as most-recently-used and, when over capacity, evict the
least-recently-used entry.  Returns `(value, new cache state, whether
storage was read)`; `none` models `torch.load` raising on a missing path. -/
def loadVoice (store : Store) (c : LRUCache) (voicePath : String) :
    Option (Emb × LRUCache × Bool) :=
  match c.entries.find? (fun e => e.1 == voicePath) with
  | some (_, v) =>
      some (v,
        { c with entries := (voicePath, v) :: c.entries.eraseP (fun e => e.1 == voicePath) },
        false)
  | none =>
      match store voicePath with
      | none => none
      | some v =>
          let es := (voicePath, v) :: c.entries
          some (v, { c with entries := if c.capacity < es.length then es.dropLast else es },
            true)

/-- Load a sequence of distinct paths in order (cache threaded through),
ignoring read failures' values; used to state the LRU eviction law. -/
def loadAll (store : Store) (c : LRUCache) : List String → LRUCache
  | [] => c
  | p :: ps =>
      match loadVoice store c p with
      | none => loadAll store c ps
      | some (_, c2, _) => loadAll store c2 ps

/-! ## Per-chunk pipeline (shared shape of both synthesis paths) -/

/-- The chunk preprocessing loop of `_generate_audio_internal`
(`stitch_long_output` branch): tokenize every chunk with
`TTSModel.process_text(chunk, voice[0])`, skipping (and logging) any chunk
whose tokenization raises. -/
def processChunks (env : Env) (voiceFirst : Char) (chunks : List String) :
    List (String × Tokens) :=
  chunks.filterMap fun chunk =>
    match env.processText chunk voiceFirst with
    | .error _ => none
    | .ok tokens => some (chunk, tokens)

/-- The audio generation loop of `_generate_audio_internal`: synthesize each
surviving `(chunk, tokens)` pair, skipping a pair whose synthesis raises or
returns `None`. -/
def synthChunks (env : Env) (voicepack : Emb) (speed : ℚ)
    (chunksData : List (String × Tokens)) : List Audio :=
  chunksData.filterMap fun ct =>
    match env.generateFromTokens ct.2 voicepack speed with
    | .error _ => none
    | .ok none => none
    | .ok (some a) => some a

/-- The composed per-chunk pipeline: the audio a single chunk contributes,
`none` when tokenization raises, synthesis raises, or synthesis returns no
audio (the chunk's soft-failure cases). -/
def chunkAudio (env : Env) (voiceFirst : Char) (voicepack : Emb) (speed : ℚ)
    (chunk : String) : Option Audio :=
  match env.processText chunk voiceFirst with
  | .error _ => none
  | .ok tokens =>
      match env.generateFromTokens tokens voicepack speed with
      | .ok (some a) => some a
      | _ => none

/-! ## Non-streaming path -/

/-- The errors `_generate_audio_internal` can raise.  `emptyText` is the
`ValueError("Text is empty after preprocessing")` raised for empty input or
empty normalizer output; `voiceNotFound` is `ValueError(f"Voice not found:
{voice}")`; `noChunksProcessed` / `noAudioGenerated` are the two
zero-survivor `ValueError`s; `loadFailed` models `torch.load` raising inside
`_load_voice`; `chunkError` is an uncaught model exception on the
single-chunk (`stitch_long_output=False`) path, where no per-chunk
`try/except` protects the calls. -/
inductive GenError
  | emptyText
  | voiceNotFound (voice : String)
  | loadFailed (voicePath : String)
  | noChunksProcessed
  | noAudioGenerated
  | chunkError (msg : String)
deriving DecidableEq

/-- Result of `_generate_audio_internal`: the audio (or error), the cache
state after the `_load_voice` call, and how many times `cleanup()` ran
inside the call.  On the `stitch_long_output=False` path the returned audio
is whatever `generate_from_tokens` produced, `None` included, because that
branch performs no `None` check.  `processing_time` is wall-clock time and
is not modelled. -/
structure InternalResult where
  result : Except GenError (Option Audio)
  cache : LRUCache
  cleanups : ℕ

/-- `TTSService._generate_audio_internal`. -/
def generateAudioInternal (env : Env) (store : Store) (cache : LRUCache)
    (text voice : String) (speed : ℚ) (stitchLongOutput : Bool := true) :
    InternalResult :=
  if text = "" then ⟨.error .emptyText, cache, 0⟩
  else
    let normalized := env.normalizeText text
    if normalized = "" then ⟨.error .emptyText, cache, 0⟩
    else
      match getVoicePath store voice with
      | none => ⟨.error (.voiceNotFound voice), cache, 0⟩
      | some voicePath =>
          match loadVoice store cache voicePath with
          | none => ⟨.error (.loadFailed voicePath), cache, 0⟩
          | some (voicepack, cache2, _) =>
              if stitchLongOutput then
                let chunksData :=
                  processChunks env voice.front (env.splitText normalized)
                if chunksData.isEmpty then
                  ⟨.error .noChunksProcessed, cache2, 0⟩
                else
                  let audioChunks := synthChunks env voicepack speed chunksData
                  if audioChunks.isEmpty then
                    ⟨.error .noAudioGenerated, cache2, 0⟩
                  else
                    let audio :=
                      if audioChunks.length > 1 then audioChunks.flatten
                      else audioChunks.headD []
                    ⟨.ok (some audio), cache2, 0⟩
              else
                match env.processText normalized voice.front with
                | .error e => ⟨.error (.chunkError e), cache2, 0⟩
                | .ok tokens =>
                    match env.generateFromTokens tokens voicepack speed with
                    | .error e => ⟨.error (.chunkError e), cache2, 0⟩
                    | .ok audio => ⟨.ok audio, cache2, 1⟩

/-- `TTSService._generate_audio`: run `_generate_audio_internal` inside
`try/finally`, so `cleanup()` runs once more on every exit path, whether the
internal call returns or raises. -/
def generateAudio (env : Env) (store : Store) (cache : LRUCache)
    (text voice : String) (speed : ℚ) (stitchLongOutput : Bool := true) :
    InternalResult :=
  let r := generateAudioInternal env store cache text voice speed stitchLongOutput
  { r with cleanups := r.cleanups + 1 }

/-! ## Streaming path -/

/-- One yielded item of `generate_audio_stream`: the audio buffer handed to
`AudioService.convert_audio` together with the `is_first_chunk` /
`is_last_chunk` flags it was encoded with (the encoder itself is an external
stateless collaborator, so the yielded bytes are determined by these
inputs). -/
structure YieldedChunk where
  audio : Audio
  isFirstChunk : Bool
  isLastChunk : Bool
deriving DecidableEq

/-- The chunk loop of `generate_audio_stream` (lines 152-185): walk the
chunk sequence with a one-chunk lookahead (`is_last_chunk` is `next_chunk is
None`, i.e. the rest of the sequence is empty); per chunk, tokenize then
synthesize inside `try/except Exception`, so a raise from either call is
logged and the chunk skipped; a `None` synthesis result is likewise logged
and skipped; on success yield with the current `is_first` flag, which
becomes false only after a yield happens. -/
def streamLoop (env : Env) (voiceFirst : Char) (voicepack : Emb) (speed : ℚ) :
    List String → Bool → List YieldedChunk
  | [], _ => []
  | currentChunk :: rest, isFirst =>
      match env.processText currentChunk voiceFirst with
      | .error _ => streamLoop env voiceFirst voicepack speed rest isFirst
      | .ok tokens =>
          match env.generateFromTokens tokens voicepack speed with
          | .error _ => streamLoop env voiceFirst voicepack speed rest isFirst
          | .ok none => streamLoop env voiceFirst voicepack speed rest isFirst
          | .ok (some chunkAudio) =>
              ⟨chunkAudio, isFirst, rest.isEmpty⟩ ::
                streamLoop env voiceFirst voicepack speed rest false

/-- `TTSService.generate_audio_stream`, up to its `finally`: the validation
phase (empty text, empty after normalization, voice not found — each a
raised `ValueError` that aborts the stream before the loop), then the voice
load through the cache, then the chunk loop.  Returns the full sequence of
yields (or the aborting error) and the cache state after the call. -/
def generateAudioStream (env : Env) (store : Store) (cache : LRUCache)
    (text voice : String) (speed : ℚ) :
    Except GenError (List YieldedChunk) × LRUCache :=
  if text = "" then (.error .emptyText, cache)
  else
    let normalized := env.normalizeText text
    if normalized = "" then (.error .emptyText, cache)
    else
      match getVoicePath store voice with
      | none => (.error (.voiceNotFound voice), cache)
      | some voicePath =>
          match loadVoice store cache voicePath with
          | none => (.error (.loadFailed voicePath), cache)
          | some (voicepack, cache2, _) =>
              (.ok (streamLoop env voice.front voicepack speed
                      (env.splitText normalized) true),
               cache2)

/-! ## Observable event traces (for the cleanup guarantee)

`generate_audio_stream` is a generator whose body ends in `finally:
cleanup()`.  Python runs the `finally` clause whichever way the generator
terminates: normal exhaustion, an exception propagating out, or the
consumer closing the generator at a suspension point (close/`GeneratorExit`
after a yield — the cancellation case).  The traces below record the yields
that actually reached the consumer followed by the `cleanup` the `finally`
clause performs. -/

/-- An observable event of a streaming request. -/
inductive Ev
  | yielded (y : YieldedChunk)
  | cleanup
deriving DecidableEq

/-- Trace of a streaming request the consumer drains to exhaustion (or that
aborts by a raised validation error before any yield): every yield, then the
one `cleanup()` of the `finally` clause. -/
def streamTrace (env : Env) (store : Store) (cache : LRUCache)
    (text voice : String) (speed : ℚ) : List Ev :=
  match (generateAudioStream env store cache text voice speed).1 with
  | .error _ => [.cleanup]
  | .ok ys => ys.map .yielded ++ [.cleanup]

/-- Modelled from the spec: trace of a streaming request the consumer
cancels after `k` yields.  The generator's `close()` raises `GeneratorExit`
at the suspension point, which runs the `finally` clause; the Python
generator-close machinery itself is outside the repository, so this
definition follows the spec's cancellation contract ("the consumer simply
stops pulling [...] and must still run its cleanup hook in that case"):
the first `k` yields reach the consumer, then the one `cleanup()`. -/
def streamTraceCancelled (env : Env) (store : Store) (cache : LRUCache)
    (text voice : String) (speed : ℚ) (k : ℕ) : List Ev :=
  match (generateAudioStream env store cache text voice speed).1 with
  | .error _ => [.cleanup]
  | .ok ys => (ys.take k).map .yielded ++ [.cleanup]

/-! ## Voice combination (`combine_voices`) -/

/-- The errors `combine_voices` can raise: `tooFew` is the
`ValueError("At least 2 voices are required for combination")`; `loadFailed
v` the `ValueError(f"Failed to load voice {v}: ...")` wrapping a raise of
`torch.load`; `saveFailed` the `RuntimeError` wrapping a `torch.save`
failure; `combineFailed` the `RuntimeError("Error combining voices: ...")`
wrapping any other raise of the combination block (e.g. `torch.stack` on
mismatched shapes). -/
inductive CombineErr
  | tooFew
  | loadFailed (voice : String)
  | saveFailed (path : String)
  | combineFailed
deriving DecidableEq

/-- The load loop of `combine_voices`: load each named voice directly with
`torch.load` (NOT through the `_load_voice` cache); the first raising load
aborts the whole call, wrapped as `ValueError(f"Failed to load voice
{voice}")`. -/
def loadAllVoices (store : Store) : List String → Except CombineErr (List Emb)
  | [] => .ok []
  | v :: rest =>
      match store (voiceFilePath v) with
      | none => .error (.loadFailed v)
      | some e =>
          match loadAllVoices store rest with
          | .error err => .error err
          | .ok es => .ok (e :: es)

/-- `torch.mean(torch.stack(t_voices), dim=0)`: the element-wise mean of the
stacked tensors.  `torch.stack` raises on an empty list or mismatched
shapes, modelled as `none`. -/
def stackMean (ts : List Emb) : Option Emb :=
  match ts with
  | [] => none
  | t :: rest =>
      if rest.all (fun u => u.length = t.length) then
        some (((rest.foldl (fun acc u => acc.zipWith (· + ·) u) t)).map
          (fun x => x / (ts.length : ℚ)))
      else none

/-- Result of `combine_voices`: the returned name (or error), the voice
store after the call, whether `torch.save` was attempted, and the
`_load_voice` cache (which `combine_voices` never consults: its loads go
straight to `torch.load`). -/
structure CombineResult where
  result : Except CombineErr String
  store : Store
  saveAttempted : Bool
  cache : LRUCache

/-- `TTSService.combine_voices`: require at least 2 names, load each named
voice directly from the store (bypassing the `_load_voice` cache), average
them element-wise, save the result under the `"_"`-joined name and return
that name.  `torch.save` itself is modelled as the store update (a save
failure would be wrapped as `saveFailed`; the store map itself cannot fail
to update). -/
def combineVoices (store : Store) (cache : LRUCache)
    (voices : List String) : CombineResult :=
  if voices.length < 2 then ⟨.error .tooFew, store, false, cache⟩
  else
    match loadAllVoices store voices with
    | .error e => ⟨.error e, store, false, cache⟩
    | .ok tVoices =>
        let f := String.intercalate "_" voices
        match stackMean tVoices with
        | none => ⟨.error .combineFailed, store, false, cache⟩
        | some v =>
            let combinedPath := voiceFilePath f
            ⟨.ok f, fun p => if p = combinedPath then some v else store p, true, cache⟩

/-! ## A concrete instantiation (used by the executable witnesses)

A small deterministic stand-in for the external collaborators: the
normalizer is the identity; the chunker maps a handful of fixed texts to
fixed chunk lists; tokenization raises exactly on the chunk `"bad"` and
otherwise returns the chunk length as the single token; synthesis returns
`None` for token `[4]` (so the chunk `"mute"` soft-fails with no audio),
raises for token `[3]` (so the chunk `"err"` hard-fails), and otherwise
returns the one-sample buffer `[token]`. -/

def wSplit (t : String) : List String :=
  if t = "single" then ["a"]
  else if t = "multi" then ["a", "zz", "qqqqq"]
  else if t = "skipmid" then ["a", "bad", "zz"]
  else if t = "failfirst" then ["bad", "zz"]
  else if t = "faillast" then ["a", "mute"]
  else if t = "sandwich" then ["bad", "zz", "mute"]
  else if t = "allbad" then ["bad", "bad"]
  else if t = "allmute" then ["mute", "err"]
  else if t = "blank" then []
  else [t]

def wEnv : Env where
  normalizeText := fun t => if t = "vanishes" then "" else t
  splitText := wSplit
  processText := fun c _ => if c = "bad" then .error "boom" else .ok [c.length]
  generateFromTokens := fun tk _ _ =>
    if tk = [4] then .ok none
    else if tk = [3] then .error "genboom"
    else .ok (some [(tk.headD 0 : ℤ)])

/-- The embedding of the concrete voice `"af"`. -/
def wEmb : Emb := [1/2, 1]

/-- A store holding the single voice `"af"` with a 2-element embedding. -/
def wStore : Store :=
  fun p => if p = voiceFilePath "af" then some wEmb else none

/-- A store holding the voices `"a"` (embedding `[2,2]`) and `"b"`
(embedding `[4,4]`), the toy case of the spec's voice-combination example. -/
def wStoreAB : Store :=
  fun p =>
    if p = voiceFilePath "a" then some [2, 2]
    else if p = voiceFilePath "b" then some [4, 4]
    else none

def wCache : LRUCache := LRUCache.empty 8

/-- The cache state after `"af"` has been loaded into the empty cache. -/
def wCacheAf : LRUCache := ⟨8, [(voiceFilePath "af", wEmb)]⟩

/-- A store holding three embedding files, for exercising the LRU cache. -/
def wStore3 : Store :=
  fun p => if p = "p1" ∨ p = "p2" ∨ p = "p3" then some [1] else none

/-! ## Basic lemmas about the shared pipeline -/

theorem loadVoice_isSome_of_store (store : Store) (c : LRUCache) (p : String)
    (h : (store p).isSome) : (loadVoice store c p).isSome := by
  unfold loadVoice
  cases hf : c.entries.find? (fun e => e.1 == p) with
  | some e => cases e with | mk k v => simp
  | none =>
      cases hs : store p with
      | none => rw [hs] at h; simp at h
      | some v => simp

/-- The two-pass batch pipeline (tokenize all chunks, then synthesize the
survivors) produces exactly the per-chunk composed pipeline's survivors, in
original chunk order. -/
theorem synthChunks_processChunks (env : Env) (voiceFirst : Char)
    (voicepack : Emb) (speed : ℚ) (chunks : List String) :
    synthChunks env voicepack speed (processChunks env voiceFirst chunks) =
      chunks.filterMap (chunkAudio env voiceFirst voicepack speed) := by
  induction chunks with
  | nil => rfl
  | cons c cs ih =>
      simp only [processChunks, synthChunks, chunkAudio, List.filterMap_cons] at *
      cases hp : env.processText c voiceFirst with
      | error e => simpa [hp] using ih
      | ok tokens =>
          cases hg : env.generateFromTokens tokens voicepack speed with
          | error e => simpa [hp, hg, List.filterMap_cons] using ih
          | ok a =>
              cases a with
              | none => simpa [hp, hg, List.filterMap_cons] using ih
              | some audio => simpa [hp, hg, List.filterMap_cons] using ih

theorem processChunks_eq_nil_iff (env : Env) (voiceFirst : Char)
    (chunks : List String) :
    processChunks env voiceFirst chunks = [] ↔
      ∀ c ∈ chunks, ∃ e, env.processText c voiceFirst = .error e := by
  unfold processChunks
  rw [List.filterMap_eq_nil_iff]
  constructor
  · intro h c hc
    have hx := h c hc
    cases hp : env.processText c voiceFirst with
    | error e => exact ⟨e, rfl⟩
    | ok tokens => rw [hp] at hx; simp at hx
  · intro h c hc
    obtain ⟨e, he⟩ := h c hc
    rw [he]

/-- A chunk whose tokenization raises, whose synthesis raises, or whose
synthesis returns no audio is skipped by the streaming loop: the loop
continues on the remaining chunks with the `is_first` flag unchanged. -/
theorem streamLoop_skip (env : Env) (voiceFirst : Char) (voicepack : Emb)
    (speed : ℚ) (c : String) (cs : List String) (b : Bool)
    (h : chunkAudio env voiceFirst voicepack speed c = none) :
    streamLoop env voiceFirst voicepack speed (c :: cs) b =
      streamLoop env voiceFirst voicepack speed cs b := by
  cases hp : env.processText c voiceFirst with
  | error e => simp only [streamLoop, hp]
  | ok tokens =>
      cases hg : env.generateFromTokens tokens voicepack speed with
      | error e => simp only [streamLoop, hp, hg]
      | ok a =>
          cases a with
          | none => simp only [streamLoop, hp, hg]
          | some audio => simp [chunkAudio, hp, hg] at h

/-- A chunk whose pipeline succeeds is yielded with the current `is_first`
flag and `is_last_chunk` exactly when no chunk follows, after which
`is_first` is false. -/
theorem streamLoop_yield (env : Env) (voiceFirst : Char) (voicepack : Emb)
    (speed : ℚ) (c : String) (cs : List String) (b : Bool) (a : Audio)
    (h : chunkAudio env voiceFirst voicepack speed c = some a) :
    streamLoop env voiceFirst voicepack speed (c :: cs) b =
      ⟨a, b, cs.isEmpty⟩ :: streamLoop env voiceFirst voicepack speed cs false := by
  cases hp : env.processText c voiceFirst with
  | error e => simp [chunkAudio, hp] at h
  | ok tokens =>
      cases hg : env.generateFromTokens tokens voicepack speed with
      | error e => simp [chunkAudio, hp, hg] at h
      | ok x =>
          cases x with
          | none => simp [chunkAudio, hp, hg] at h
          | some audio =>
              simp only [chunkAudio, hp, hg, Option.some.injEq] at h
              subst h
              simp only [streamLoop, hp, hg]

/-- Unfolding of `_generate_audio_internal` on a validated request (text
non-empty, normalizer output non-empty, voice file present) in the
`stitch_long_output=True` branch. -/
theorem generateAudioInternal_valid (env : Env) (store : Store)
    (cache : LRUCache) (text voice : String) (speed : ℚ)
    (vp : Emb) (cache2 : LRUCache) (didRead : Bool)
    (htext : text ≠ "") (hnorm : env.normalizeText text ≠ "")
    (hstore : (store (voiceFilePath voice)).isSome)
    (hload : loadVoice store cache (voiceFilePath voice) =
      some (vp, cache2, didRead)) :
    generateAudioInternal env store cache text voice speed true =
      (let chunksData :=
        processChunks env voice.front (env.splitText (env.normalizeText text))
       if chunksData.isEmpty then
         ⟨.error .noChunksProcessed, cache2, 0⟩
       else
         let audioChunks := synthChunks env vp speed chunksData
         if audioChunks.isEmpty then
           ⟨.error .noAudioGenerated, cache2, 0⟩
         else
           ⟨.ok (some (if audioChunks.length > 1 then audioChunks.flatten
                       else audioChunks.headD [])), cache2, 0⟩) := by
  unfold generateAudioInternal getVoicePath
  simp only [if_neg htext, if_neg hnorm, hstore, if_pos, hload]

/-- Unfolding of `generate_audio_stream` on a validated request: the result
is the yields of the chunk loop, never an aborting error. -/
theorem generateAudioStream_valid (env : Env) (store : Store)
    (cache : LRUCache) (text voice : String) (speed : ℚ)
    (vp : Emb) (cache2 : LRUCache) (didRead : Bool)
    (htext : text ≠ "") (hnorm : env.normalizeText text ≠ "")
    (hstore : (store (voiceFilePath voice)).isSome)
    (hload : loadVoice store cache (voiceFilePath voice) =
      some (vp, cache2, didRead)) :
    generateAudioStream env store cache text voice speed =
      (.ok (streamLoop env voice.front vp speed
              (env.splitText (env.normalizeText text)) true),
       cache2) := by
  unfold generateAudioStream getVoicePath
  simp only [if_neg htext, if_neg hnorm, hstore, if_pos, hload]

/-- The `np.concatenate(audio_chunks) if len(audio_chunks) > 1 else
audio_chunks[0]` branch computes the concatenation of the buffers whenever
at least one buffer survives. -/
theorem flatten_branch (xs : List Audio) (h : xs ≠ []) :
    (if xs.length > 1 then xs.flatten else xs.headD []) = xs.flatten := by
  match xs with
  | [b] => simp
  | a :: b :: rest => simp

/-! ## Claim theorems: the non-streaming path -/

/-- C3: in the non-streaming path (`stitch_long_output=True`), when some but
not all chunks soft-fail (tokenization raised, synthesis raised, or
synthesis produced no audio), no error is raised: the returned audio is the
concatenation, in original chunk order, of the surviving chunks' buffers;
and when exactly one buffer survives, the result is that buffer itself (the
source returns `audio_chunks[0]` without re-copying — in this value-level
embedding, the strongest renderable form is equality with the surviving
buffer). -/
theorem nonstreaming_soft_failure_containment
    (env : Env) (store : Store) (cache : LRUCache) (text voice : String)
    (speed : ℚ) (vp : Emb) (cache2 : LRUCache) (didRead : Bool)
    (htext : text ≠ "") (hnorm : env.normalizeText text ≠ "")
    (hstore : (store (voiceFilePath voice)).isSome)
    (hload : loadVoice store cache (voiceFilePath voice) =
      some (vp, cache2, didRead))
    (_hfail : ∃ c ∈ env.splitText (env.normalizeText text),
      chunkAudio env voice.front vp speed c = none)
    (hsucc : ∃ c ∈ env.splitText (env.normalizeText text),
      (chunkAudio env voice.front vp speed c).isSome) :
    (generateAudioInternal env store cache text voice speed true).result =
      .ok (some (((env.splitText (env.normalizeText text)).filterMap
        (chunkAudio env voice.front vp speed)).flatten)) ∧
    ∀ b, (env.splitText (env.normalizeText text)).filterMap
        (chunkAudio env voice.front vp speed) = [b] →
      (generateAudioInternal env store cache text voice speed true).result =
        .ok (some b) := by
  rw [generateAudioInternal_valid env store cache text voice speed vp cache2
    didRead htext hnorm hstore hload]
  obtain ⟨c, hc, ha⟩ := hsucc
  obtain ⟨a, ha⟩ := Option.isSome_iff_exists.mp ha
  have hcd : processChunks env voice.front
      (env.splitText (env.normalizeText text)) ≠ [] := by
    intro hnil
    have := (processChunks_eq_nil_iff env voice.front _).mp hnil c hc
    obtain ⟨e, he⟩ := this
    rw [chunkAudio, he] at ha
    simp at ha
  have hac : synthChunks env vp speed (processChunks env voice.front
      (env.splitText (env.normalizeText text))) =
      (env.splitText (env.normalizeText text)).filterMap
        (chunkAudio env voice.front vp speed) :=
    synthChunks_processChunks env voice.front vp speed _
  have hne : (env.splitText (env.normalizeText text)).filterMap
      (chunkAudio env voice.front vp speed) ≠ [] := by
    intro hnil
    have : a ∈ (env.splitText (env.normalizeText text)).filterMap
        (chunkAudio env voice.front vp speed) :=
      List.mem_filterMap.mpr ⟨c, hc, ha⟩
    rw [hnil] at this
    simp at this
  have hb1 : (processChunks env voice.front
      (env.splitText (env.normalizeText text))).isEmpty = false := by
    simpa [List.isEmpty_iff] using hcd
  have hb2 : ((env.splitText (env.normalizeText text)).filterMap
      (chunkAudio env voice.front vp speed)).isEmpty = false := by
    simpa [List.isEmpty_iff] using hne
  constructor
  · simp only [hb1, hac, hb2, Bool.false_eq_true, if_false,
      flatten_branch _ hne]
  · intro b hb
    simp only [hb1, hac, hb, hb2, Bool.false_eq_true, if_false]
    simp

/-- C4: in the non-streaming path, if tokenization raises for every chunk
the whole request aborts with the `ValueError("No chunks were processed
successfully")`; if some chunk tokenizes but synthesis produces audio for
none of the surviving chunks, the whole request aborts with the
`ValueError("No audio chunks were generated successfully")`. -/
theorem nonstreaming_zero_survivor_escalation
    (env : Env) (store : Store) (cache : LRUCache) (text voice : String)
    (speed : ℚ) (vp : Emb) (cache2 : LRUCache) (didRead : Bool)
    (htext : text ≠ "") (hnorm : env.normalizeText text ≠ "")
    (hstore : (store (voiceFilePath voice)).isSome)
    (hload : loadVoice store cache (voiceFilePath voice) =
      some (vp, cache2, didRead)) :
    ((∀ c ∈ env.splitText (env.normalizeText text), ∃ e,
        env.processText c voice.front = .error e) →
      (generateAudioInternal env store cache text voice speed true).result =
        .error .noChunksProcessed) ∧
    (((∃ c ∈ env.splitText (env.normalizeText text), ∃ tk,
        env.processText c voice.front = .ok tk) ∧
      (∀ c ∈ env.splitText (env.normalizeText text), ∀ tk,
        env.processText c voice.front = .ok tk →
        ∀ a, env.generateFromTokens tk vp speed ≠ .ok (some a))) →
      (generateAudioInternal env store cache text voice speed true).result =
        .error .noAudioGenerated) := by
  rw [generateAudioInternal_valid env store cache text voice speed vp cache2
    didRead htext hnorm hstore hload]
  constructor
  · intro hall
    have : processChunks env voice.front
        (env.splitText (env.normalizeText text)) = [] :=
      (processChunks_eq_nil_iff env voice.front _).mpr hall
    simp [this]
  · rintro ⟨⟨c, hc, tk, htk⟩, hgen⟩
    have hcd : processChunks env voice.front
        (env.splitText (env.normalizeText text)) ≠ [] := by
      intro hnil
      obtain ⟨e, he⟩ := (processChunks_eq_nil_iff env voice.front _).mp hnil c hc
      rw [htk] at he
      exact Except.noConfusion he
    have hsyn : synthChunks env vp speed (processChunks env voice.front
        (env.splitText (env.normalizeText text))) = [] := by
      rw [synthChunks_processChunks]
      rw [List.filterMap_eq_nil_iff]
      intro d hd
      cases hp : env.processText d voice.front with
      | error e => simp [chunkAudio, hp]
      | ok tks =>
          cases hg : env.generateFromTokens tks vp speed with
          | error e => simp [chunkAudio, hp, hg]
          | ok x =>
              cases x with
              | none => simp [chunkAudio, hp, hg]
              | some audio => exact absurd hg (hgen d hd tks hp audio)
    simp [List.isEmpty_iff, hcd, hsyn]

/-! ## Lemmas about the streaming loop -/

/-- The first chunk the streaming loop yields carries the entry value of the
`is_first` flag: soft-failed chunks before it do not clear the flag, because
`is_first = False` is executed only after a `yield`. -/
theorem streamLoop_head_isFirst (env : Env) (voiceFirst : Char) (vp : Emb)
    (speed : ℚ) :
    ∀ (cs : List String) (b : Bool) (y : YieldedChunk),
      (streamLoop env voiceFirst vp speed cs b).head? = some y →
      y.isFirstChunk = b := by
  intro cs
  induction cs with
  | nil => intro b y h; simp [streamLoop] at h
  | cons c rest ih =>
      intro b y h
      cases ha : chunkAudio env voiceFirst vp speed c with
      | none =>
          rw [streamLoop_skip env voiceFirst vp speed c rest b ha] at h
          exact ih b y h
      | some a =>
          rw [streamLoop_yield env voiceFirst vp speed c rest b a ha] at h
          simp only [List.head?_cons, Option.some.injEq] at h
          rw [← h]

/-- If the final text chunk soft-fails, no yield of the streaming loop is
tagged `is_last_chunk`: the flag is true only on a yield produced by the
chunk with no successor. -/
theorem streamLoop_no_last_of_last_fails (env : Env) (voiceFirst : Char)
    (vp : Emb) (speed : ℚ) :
    ∀ (cs : List String) (b : Bool) (c : String),
      cs.getLast? = some c → chunkAudio env voiceFirst vp speed c = none →
      ∀ y ∈ streamLoop env voiceFirst vp speed cs b, y.isLastChunk = false := by
  intro cs
  induction cs with
  | nil => intro b c hc; simp at hc
  | cons d rest ih =>
      intro b c hc hfail y hy
      cases rest with
      | nil =>
          simp only [List.getLast?_singleton, Option.some.injEq] at hc
          have hfd : chunkAudio env voiceFirst vp speed d = none := by
            rw [hc]; exact hfail
          rw [streamLoop_skip env voiceFirst vp speed d [] b hfd] at hy
          simp [streamLoop] at hy
      | cons e rest2 =>
          have hc2 : (e :: rest2).getLast? = some c := by
            rw [List.getLast?_cons_cons] at hc
            exact hc
          cases ha : chunkAudio env voiceFirst vp speed d with
          | none =>
              rw [streamLoop_skip env voiceFirst vp speed d (e :: rest2) b ha] at hy
              exact ih b c hc2 hfail y hy
          | some a =>
              rw [streamLoop_yield env voiceFirst vp speed d (e :: rest2) b a ha] at hy
              rcases List.mem_cons.mp hy with h1 | h2
              · subst h1; simp
              · exact ih false c hc2 hfail y h2

/-- When every chunk of the sequence succeeds, the streaming loop yields one
chunk per text chunk; the `i`-th yield is tagged first exactly when the
entry flag is set and `i = 0`, and tagged last exactly when it is the final
yield. -/
theorem streamLoop_all_success (env : Env) (voiceFirst : Char) (vp : Emb)
    (speed : ℚ) :
    ∀ (cs : List String) (b : Bool),
      (∀ c ∈ cs, (chunkAudio env voiceFirst vp speed c).isSome) →
      (streamLoop env voiceFirst vp speed cs b).length = cs.length ∧
      ∀ i (hi : i < (streamLoop env voiceFirst vp speed cs b).length),
        (((streamLoop env voiceFirst vp speed cs b).get ⟨i, hi⟩).isFirstChunk
          = (b && decide (i = 0))) ∧
        (((streamLoop env voiceFirst vp speed cs b).get ⟨i, hi⟩).isLastChunk
          = decide (i + 1 = cs.length)) := by
  intro cs
  induction cs with
  | nil => intro b hall; simp [streamLoop]
  | cons c rest ih =>
      intro b hall
      obtain ⟨a, ha⟩ := Option.isSome_iff_exists.mp
        (hall c (List.mem_cons_self c rest))
      have hrest : ∀ d ∈ rest, (chunkAudio env voiceFirst vp speed d).isSome :=
        fun d hd => hall d (List.mem_cons_of_mem c hd)
      obtain ⟨ihlen, ihflags⟩ := ih false hrest
      rw [streamLoop_yield env voiceFirst vp speed c rest b a ha]
      refine ⟨by simp [ihlen], ?_⟩
      intro i hi
      cases i with
      | zero =>
          constructor
          · simp
          · cases rest <;> simp
      | succ j =>
          have hj : j < (streamLoop env voiceFirst vp speed rest false).length := by
            simpa using hi
          obtain ⟨hf, hl⟩ := ihflags j hj
          constructor
          · simpa using hf
          · simp only [List.get_cons_succ, List.length_cons]
            rw [hl]
            simp only [decide_eq_decide]
            omega

/-! ## Claim theorems: the streaming path -/

/-- C2: on a validated streaming request in which every chunk tokenizes and
synthesizes successfully, the stream yields one encoding per chunk; a
single-chunk stream yields exactly one item tagged both first and last,
and in general the `i`-th yield is tagged `is_first_chunk` exactly when
`i = 0` and `is_last_chunk` exactly when it is the final yield. -/
theorem streaming_position_determinism
    (env : Env) (store : Store) (cache : LRUCache) (text voice : String)
    (speed : ℚ) (vp : Emb) (cache2 : LRUCache) (didRead : Bool)
    (htext : text ≠ "") (hnorm : env.normalizeText text ≠ "")
    (hstore : (store (voiceFilePath voice)).isSome)
    (hload : loadVoice store cache (voiceFilePath voice) =
      some (vp, cache2, didRead))
    (hall : ∀ c ∈ env.splitText (env.normalizeText text),
      (chunkAudio env voice.front vp speed c).isSome) :
    ∃ ys, (generateAudioStream env store cache text voice speed).1 = .ok ys ∧
      ys.length = (env.splitText (env.normalizeText text)).length ∧
      ∀ i (hi : i < ys.length),
        ((ys.get ⟨i, hi⟩).isFirstChunk = true ↔ i = 0) ∧
        ((ys.get ⟨i, hi⟩).isLastChunk = true ↔ i + 1 = ys.length) := by
  rw [generateAudioStream_valid env store cache text voice speed vp cache2
    didRead htext hnorm hstore hload]
  refine ⟨_, rfl, ?_⟩
  obtain ⟨hlen, hflags⟩ :=
    streamLoop_all_success env voice.front vp speed
      (env.splitText (env.normalizeText text)) true hall
  refine ⟨hlen, ?_⟩
  intro i hi
  obtain ⟨hf, hl⟩ := hflags i hi
  constructor
  · rw [hf]; simp
  · rw [hl, hlen]; simp

/-- C9: on a validated streaming request, if the first text chunk
soft-fails, the first yield that does occur is still tagged
`is_first_chunk` (the flag is cleared only after an actual yield); and if
the final text chunk soft-fails, no yield at all is tagged `is_last_chunk`
(the flag depends only on sequence position), so the stream ends without a
last-tagged chunk. -/
theorem streaming_flags_under_soft_failure
    (env : Env) (store : Store) (cache : LRUCache) (text voice : String)
    (speed : ℚ) (vp : Emb) (cache2 : LRUCache) (didRead : Bool)
    (htext : text ≠ "") (hnorm : env.normalizeText text ≠ "")
    (hstore : (store (voiceFilePath voice)).isSome)
    (hload : loadVoice store cache (voiceFilePath voice) =
      some (vp, cache2, didRead)) :
    ∃ ys, (generateAudioStream env store cache text voice speed).1 = .ok ys ∧
      ((∃ c0, (env.splitText (env.normalizeText text)).head? = some c0 ∧
          chunkAudio env voice.front vp speed c0 = none) →
        ∀ y, ys.head? = some y → y.isFirstChunk = true) ∧
      ((∃ cl, (env.splitText (env.normalizeText text)).getLast? = some cl ∧
          chunkAudio env voice.front vp speed cl = none) →
        ∀ y ∈ ys, y.isLastChunk = false) := by
  rw [generateAudioStream_valid env store cache text voice speed vp cache2
    didRead htext hnorm hstore hload]
  refine ⟨_, rfl, ?_, ?_⟩
  · rintro - y hy
    exact streamLoop_head_isFirst env voice.front vp speed _ true y hy
  · rintro ⟨cl, hcl, hfl⟩ y hy
    exact streamLoop_no_last_of_last_fails env voice.front vp speed _ true
      cl hcl hfl y hy

/-- C1, counterexample: in `generate_audio_stream` an exception raised by
`TTSModel.process_text` does NOT propagate to the consumer and does not end
the stream.  In the concrete instantiation the text splits into the chunks
`["bad", "zz"]` and tokenization raises on `"bad"`; the claim predicts the
stream aborts with that exception, but the code's per-chunk
`try/except Exception` catches it: the stream still yields the following
chunk and terminates normally (`.ok`, no error). -/
theorem streaming_tokenize_error_does_not_abort_counterexample :
    wEnv.processText "bad" "af".front = .error "boom" ∧
    wSplit "failfirst" = ["bad", "zz"] ∧
    (generateAudioStream wEnv wStore wCache "failfirst" "af" 1).1 =
      .ok [⟨[2], true, true⟩] :=
  ⟨rfl, rfl, rfl⟩

/-- C1, amended: on a validated streaming request no per-chunk exception
ever ends the stream: the result is a normal `.ok` yield sequence; a chunk
on which `process_text` raises is skipped exactly like a chunk whose
synthesis returns no audio — in both cases the loop continues with the
remaining chunks and the `is_first` flag unchanged. -/
theorem streaming_tokenize_error_skips_chunk
    (env : Env) (store : Store) (cache : LRUCache) (text voice : String)
    (speed : ℚ) (vp : Emb) (cache2 : LRUCache) (didRead : Bool)
    (htext : text ≠ "") (hnorm : env.normalizeText text ≠ "")
    (hstore : (store (voiceFilePath voice)).isSome)
    (hload : loadVoice store cache (voiceFilePath voice) =
      some (vp, cache2, didRead)) :
    (∃ ys, (generateAudioStream env store cache text voice speed).1 = .ok ys) ∧
    (∀ (c : String) (cs : List String) (b : Bool) (e : String),
      env.processText c voice.front = .error e →
      streamLoop env voice.front vp speed (c :: cs) b =
        streamLoop env voice.front vp speed cs b) ∧
    (∀ (c : String) (cs : List String) (b : Bool) (tk : Tokens),
      env.processText c voice.front = .ok tk →
      env.generateFromTokens tk vp speed = .ok none →
      streamLoop env voice.front vp speed (c :: cs) b =
        streamLoop env voice.front vp speed cs b) := by
  refine ⟨?_, ?_, ?_⟩
  · rw [generateAudioStream_valid env store cache text voice speed vp cache2
      didRead htext hnorm hstore hload]
    exact ⟨_, rfl⟩
  · intro c cs b e he
    exact streamLoop_skip env voice.front vp speed c cs b
      (by simp [chunkAudio, he])
  · intro c cs b tk htk hgen
    exact streamLoop_skip env voice.front vp speed c cs b
      (by simp [chunkAudio, htk, hgen])

/-- C7: empty text, text that normalizes to empty, and an unresolvable
voice are each rejected with the corresponding `ValueError` on both
synthesis paths; the conclusions hold for every behavior of the external
tokenize/synthesize capabilities (they are never consulted), and on the
streaming path the trace contains no yield event — the stream aborts before
any bytes are produced. -/
theorem validation_errors_abort_before_any_work
    (env : Env) (store : Store) (cache : LRUCache) (text voice : String)
    (speed : ℚ) :
    (text = "" →
      (generateAudioInternal env store cache text voice speed true).result =
        .error .emptyText ∧
      (generateAudioStream env store cache text voice speed).1 =
        .error .emptyText ∧
      streamTrace env store cache text voice speed = [.cleanup]) ∧
    (text ≠ "" → env.normalizeText text = "" →
      (generateAudioInternal env store cache text voice speed true).result =
        .error .emptyText ∧
      (generateAudioStream env store cache text voice speed).1 =
        .error .emptyText ∧
      streamTrace env store cache text voice speed = [.cleanup]) ∧
    (text ≠ "" → env.normalizeText text ≠ "" →
      store (voiceFilePath voice) = none →
      (generateAudioInternal env store cache text voice speed true).result =
        .error (.voiceNotFound voice) ∧
      (generateAudioStream env store cache text voice speed).1 =
        .error (.voiceNotFound voice) ∧
      streamTrace env store cache text voice speed = [.cleanup]) := by
  refine ⟨?_, ?_, ?_⟩
  · intro h
    have h1 : (generateAudioStream env store cache text voice speed).1 =
        .error .emptyText := by
      simp [generateAudioStream, h]
    exact ⟨by simp [generateAudioInternal, h], h1, by simp [streamTrace, h1]⟩
  · intro h hn
    have h1 : (generateAudioStream env store cache text voice speed).1 =
        .error .emptyText := by
      simp [generateAudioStream, h, hn]
    exact ⟨by simp [generateAudioInternal, h, hn], h1, by simp [streamTrace, h1]⟩
  · intro h hn hv
    have hget : getVoicePath store voice = none := by
      simp [getVoicePath, hv]
    have h1 : (generateAudioStream env store cache text voice speed).1 =
        .error (.voiceNotFound voice) := by
      simp [generateAudioStream, h, hn, hget]
    exact ⟨by simp [generateAudioInternal, h, hn, hget], h1,
      by simp [streamTrace, h1]⟩

/-! ## Claim theorems: the cleanup guarantee -/

/-- On the `stitch_long_output=True` branch `_generate_audio_internal`
itself never calls `cleanup()`. -/
theorem generateAudioInternal_true_cleanups (env : Env) (store : Store)
    (cache : LRUCache) (text voice : String) (speed : ℚ) :
    (generateAudioInternal env store cache text voice speed true).cleanups = 0 := by
  unfold generateAudioInternal
  repeat' split
  all_goals dsimp only
  all_goals repeat' split
  all_goals first | rfl | simp_all

/-- On the `stitch_long_output=False` branch `_generate_audio_internal`
calls `cleanup(verbose=True)` exactly when it succeeds (the call sits after
the generate step, before the return). -/
theorem generateAudioInternal_false_cleanups (env : Env) (store : Store)
    (cache : LRUCache) (text voice : String) (speed : ℚ) :
    (generateAudioInternal env store cache text voice speed false).cleanups =
      match (generateAudioInternal env store cache text voice speed false).result with
      | .ok _ => 1
      | .error _ => 0 := by
  unfold generateAudioInternal
  repeat' split
  all_goals dsimp only
  all_goals repeat' split
  all_goals first | rfl | simp_all

/-- C6, counterexample: `cleanup()` does not run exactly once on every
non-streaming call.  On the `stitch_long_output=False` success path the
internal routine runs `cleanup(verbose=True)` and the `_generate_audio`
wrapper's `finally` then runs `cleanup()` again: two runs for one request. -/
theorem cleanup_twice_on_single_chunk_path_counterexample :
    (generateAudio wEnv wStore wCache "single" "af" 1 false).result =
      .ok (some [6]) ∧
    (generateAudio wEnv wStore wCache "single" "af" 1 false).cleanups = 2 :=
  ⟨rfl, rfl⟩

/-- C6, amended: `cleanup()` runs exactly once per non-streaming request
when `stitch_long_output=True`, whether the internal call returns or raises;
on the `stitch_long_output=False` branch it runs twice on success (once
inside the internal routine, once in the wrapper's `finally`) and once on a
raise; and a streaming request's trace contains exactly one cleanup event on
every exit path — normal exhaustion, a validation error aborting the stream,
or consumer cancellation after any number of yields. -/
theorem cleanup_guarantee (env : Env) (store : Store) (cache : LRUCache)
    (text voice : String) (speed : ℚ) :
    (generateAudio env store cache text voice speed true).cleanups = 1 ∧
    ((generateAudio env store cache text voice speed false).cleanups =
      match (generateAudio env store cache text voice speed false).result with
      | .ok _ => 2
      | .error _ => 1) ∧
    (streamTrace env store cache text voice speed).count .cleanup = 1 ∧
    (∀ k, (streamTraceCancelled env store cache text voice speed k).count
      .cleanup = 1) := by
  have hyield : ∀ (ys : List YieldedChunk),
      (ys.map Ev.yielded).count Ev.cleanup = 0 := by
    intro ys
    rw [List.count_eq_zero]
    simp only [List.mem_map]
    rintro ⟨y, -, h⟩
    exact Ev.noConfusion h
  refine ⟨?_, ?_, ?_, ?_⟩
  · show (generateAudioInternal env store cache text voice speed true).cleanups
        + 1 = 1
    rw [generateAudioInternal_true_cleanups]
  · have hres : (generateAudio env store cache text voice speed false).result =
        (generateAudioInternal env store cache text voice speed false).result := rfl
    show (generateAudioInternal env store cache text voice speed false).cleanups
        + 1 = _
    rw [generateAudioInternal_false_cleanups, hres]
    cases (generateAudioInternal env store cache text voice speed false).result <;> rfl
  · unfold streamTrace
    rcases (generateAudioStream env store cache text voice speed).1 with e | ys
    · rfl
    · simp [List.count_append, hyield ys, List.count_cons]
  · intro k
    unfold streamTraceCancelled
    rcases (generateAudioStream env store cache text voice speed).1 with e | ys
    · rfl
    · have h0 := hyield ys
      have hle := List.Sublist.count_le
        (List.take_sublist k (ys.map Ev.yielded)) Ev.cleanup
      simp only [List.count_append, List.count_cons, List.map_take]
      simp
      omega

/-! ## Witnesses for the hypothesis-bearing claim theorems -/

/-- Concrete witness for C3: the text splits into `["a", "bad", "zz"]`,
tokenization raises on `"bad"`, and the result is the concatenation of the
two surviving buffers. -/
theorem nonstreaming_soft_failure_containment_witness :
    (generateAudioInternal wEnv wStore wCache "skipmid" "af" 1 true).result =
      .ok (some [1, 2]) := by
  have h := (nonstreaming_soft_failure_containment wEnv wStore wCache
    "skipmid" "af" 1 wEmb wCacheAf true (by decide) (by decide) (by decide)
    rfl ⟨"bad", by decide, rfl⟩ ⟨"a", by decide, rfl⟩).1
  rw [h]
  rfl

/-- Concrete witness for C4: on `"allbad"` every chunk fails tokenization
and the request aborts with the no-chunks error; on `"allmute"` both chunks
tokenize but neither produces audio, and the request aborts with the
no-audio error. -/
theorem nonstreaming_zero_survivor_escalation_witness :
    (generateAudioInternal wEnv wStore wCache "allbad" "af" 1 true).result =
      .error .noChunksProcessed ∧
    (generateAudioInternal wEnv wStore wCache "allmute" "af" 1 true).result =
      .error .noAudioGenerated := by
  constructor
  · refine (nonstreaming_zero_survivor_escalation wEnv wStore wCache
      "allbad" "af" 1 wEmb wCacheAf true (by decide) (by decide) (by decide)
      rfl).1 ?_
    intro c hc
    rw [show wEnv.splitText (wEnv.normalizeText "allbad") = ["bad", "bad"]
      from rfl] at hc
    rcases List.mem_cons.mp hc with h | h
    · subst h; exact ⟨"boom", rfl⟩
    · rw [List.mem_singleton] at h; subst h; exact ⟨"boom", rfl⟩
  · refine (nonstreaming_zero_survivor_escalation wEnv wStore wCache
      "allmute" "af" 1 wEmb wCacheAf true (by decide) (by decide) (by decide)
      rfl).2 ⟨⟨"mute", by decide, [4], rfl⟩, ?_⟩
    intro c hc tk htk a hga
    rw [show wEnv.splitText (wEnv.normalizeText "allmute") = ["mute", "err"]
      from rfl] at hc
    rcases List.mem_cons.mp hc with h | h
    · subst h
      rw [show wEnv.processText "mute" "af".front = .ok [4] from rfl] at htk
      injection htk with he
      subst he
      rw [show wEnv.generateFromTokens [4] wEmb 1 = .ok none from rfl] at hga
      injection hga with ho
      exact Option.noConfusion ho
    · rw [List.mem_singleton] at h
      subst h
      rw [show wEnv.processText "err" "af".front = .ok [3] from rfl] at htk
      injection htk with he
      subst he
      rw [show wEnv.generateFromTokens [3] wEmb 1 = .error "genboom"
        from rfl] at hga
      exact Except.noConfusion hga

/-- Concrete witness for C2: the three-chunk text `"multi"` yields three
encodings tagged (first), (neither), (last), and the single-chunk text
`"single"` yields exactly one encoding tagged both first and last. -/
theorem streaming_position_determinism_witness :
    (∃ ys, (generateAudioStream wEnv wStore wCache "multi" "af" 1).1 =
        .ok ys ∧ ys.length = 3 ∧
      ∀ i (hi : i < ys.length),
        ((ys.get ⟨i, hi⟩).isFirstChunk = true ↔ i = 0) ∧
        ((ys.get ⟨i, hi⟩).isLastChunk = true ↔ i + 1 = ys.length)) ∧
    (generateAudioStream wEnv wStore wCache "single" "af" 1).1 =
      .ok [⟨[1], true, true⟩] := by
  constructor
  · obtain ⟨ys, h1, h2, h3⟩ := streaming_position_determinism wEnv wStore
      wCache "multi" "af" 1 wEmb wCacheAf true (by decide) (by decide)
      (by decide) rfl (by decide)
    exact ⟨ys, h1, by rw [h2]; rfl, h3⟩
  · rfl

/-- Concrete witness for C9: the text `"sandwich"` splits into
`["bad", "zz", "mute"]`; the first chunk fails tokenization and the last
produces no audio, yet the one yield that occurs is tagged first, and no
yield is tagged last. -/
theorem streaming_flags_under_soft_failure_witness :
    ∃ ys, (generateAudioStream wEnv wStore wCache "sandwich" "af" 1).1 =
      .ok ys ∧ (∀ y, ys.head? = some y → y.isFirstChunk = true) ∧
      (∀ y ∈ ys, y.isLastChunk = false) := by
  obtain ⟨ys, h1, h2, h3⟩ := streaming_flags_under_soft_failure wEnv wStore
    wCache "sandwich" "af" 1 wEmb wCacheAf true (by decide) (by decide)
    (by decide) rfl
  exact ⟨ys, h1, h2 ⟨"bad", rfl, rfl⟩, h3 ⟨"mute", rfl, rfl⟩⟩

/-- Concrete witness for the amended C1: on the validated request
`"failfirst"` the stream terminates normally, and the loop drops the
chunk `"bad"` (whose tokenization raises) exactly as it drops the chunk
`"mute"` (whose synthesis returns no audio). -/
theorem streaming_tokenize_error_skips_chunk_witness :
    (∃ ys, (generateAudioStream wEnv wStore wCache "failfirst" "af" 1).1 =
      .ok ys) ∧
    streamLoop wEnv "af".front wEmb 1 ["bad", "zz"] true =
      streamLoop wEnv "af".front wEmb 1 ["zz"] true ∧
    streamLoop wEnv "af".front wEmb 1 ["mute", "zz"] true =
      streamLoop wEnv "af".front wEmb 1 ["zz"] true := by
  obtain ⟨h1, h2, h3⟩ := streaming_tokenize_error_skips_chunk wEnv wStore
    wCache "failfirst" "af" 1 wEmb wCacheAf true (by decide) (by decide)
    (by decide) rfl
  exact ⟨h1, h2 "bad" ["zz"] true "boom" rfl, h3 "mute" ["zz"] true [4] rfl rfl⟩

/-- Concrete witness for C7: empty text, the text `"vanishes"` (which
normalizes to empty), and the missing voice `"zz"` are each rejected on both
paths with no yield event in the stream trace. -/
theorem validation_errors_abort_before_any_work_witness :
    ((generateAudioInternal wEnv wStore wCache "" "af" 1 true).result =
        .error .emptyText ∧
      (generateAudioStream wEnv wStore wCache "" "af" 1).1 =
        .error .emptyText ∧
      streamTrace wEnv wStore wCache "" "af" 1 = [.cleanup]) ∧
    ((generateAudioInternal wEnv wStore wCache "vanishes" "af" 1 true).result =
        .error .emptyText ∧
      (generateAudioStream wEnv wStore wCache "vanishes" "af" 1).1 =
        .error .emptyText ∧
      streamTrace wEnv wStore wCache "vanishes" "af" 1 = [.cleanup]) ∧
    ((generateAudioInternal wEnv wStore wCache "single" "zz" 1 true).result =
        .error (.voiceNotFound "zz") ∧
      (generateAudioStream wEnv wStore wCache "single" "zz" 1).1 =
        .error (.voiceNotFound "zz") ∧
      streamTrace wEnv wStore wCache "single" "zz" 1 = [.cleanup]) := by
  refine ⟨?_, ?_, ?_⟩
  · exact (validation_errors_abort_before_any_work wEnv wStore wCache ""
      "af" 1).1 rfl
  · exact (validation_errors_abort_before_any_work wEnv wStore wCache
      "vanishes" "af" 1).2.1 (by decide) rfl
  · exact (validation_errors_abort_before_any_work wEnv wStore wCache
      "single" "zz" 1).2.2 (by decide) (by decide) rfl

/-! ## Lemmas about voice combination -/

theorem loadAllVoices_ok (store : Store) (voices : List String)
    (embOf : String → Emb)
    (h : ∀ v ∈ voices, store (voiceFilePath v) = some (embOf v)) :
    loadAllVoices store voices = .ok (voices.map embOf) := by
  induction voices with
  | nil => rfl
  | cons v rest ih =>
      have hv := h v (List.mem_cons_self v rest)
      have hr := ih (fun u hu => h u (List.mem_cons_of_mem v hu))
      simp only [loadAllVoices, hv, hr, List.map_cons]

theorem loadAllVoices_isSome (store : Store) (voices : List String)
    (es : List Emb) (h : loadAllVoices store voices = .ok es) :
    ∀ v ∈ voices, (store (voiceFilePath v)).isSome := by
  induction voices generalizing es with
  | nil => intro v hv; simp at hv
  | cons v0 rest ih =>
      intro v hv
      unfold loadAllVoices at h
      cases hs : store (voiceFilePath v0) with
      | none => rw [hs] at h; exact Except.noConfusion h
      | some e =>
          rw [hs] at h
          cases hrest : loadAllVoices store rest with
          | error err => rw [hrest] at h; exact Except.noConfusion h
          | ok es2 =>
              rcases List.mem_cons.mp hv with h1 | h1
              · subst h1; rw [hs]; rfl
              · exact ih es2 hrest v h1

theorem loadAllVoices_error_of_fail (store : Store) (voices : List String)
    (hfail : ∃ v ∈ voices, store (voiceFilePath v) = none) :
    ∃ v ∈ voices, store (voiceFilePath v) = none ∧
      loadAllVoices store voices = .error (.loadFailed v) := by
  induction voices with
  | nil => obtain ⟨v, hv, -⟩ := hfail; simp at hv
  | cons v0 rest ih =>
      cases hs : store (voiceFilePath v0) with
      | none =>
          refine ⟨v0, List.mem_cons_self v0 rest, hs, ?_⟩
          unfold loadAllVoices
          rw [hs]
      | some e =>
          obtain ⟨v, hv, hn⟩ := hfail
          rcases List.mem_cons.mp hv with h1 | h1
          · subst h1; rw [hs] at hn; exact Option.noConfusion hn
          · obtain ⟨w, hw, hwn, herr⟩ := ih ⟨v, h1, hn⟩
            refine ⟨w, List.mem_cons_of_mem v0 hw, hwn, ?_⟩
            unfold loadAllVoices
            rw [hs, herr]

/-- `saveAttempted` is set only on the branch where every named voice
loaded. -/
theorem saveAttempted_implies_all_loaded (store : Store) (cache : LRUCache)
    (voices : List String)
    (h : (combineVoices store cache voices).saveAttempted = true) :
    ∀ v ∈ voices, (store (voiceFilePath v)).isSome := by
  by_cases hl : voices.length < 2
  · unfold combineVoices at h
    rw [if_pos hl] at h
    exact absurd h (by simp)
  · unfold combineVoices at h
    rw [if_neg hl] at h
    cases hlv : loadAllVoices store voices with
    | error e => simp only [hlv] at h; exact absurd h (by simp)
    | ok es => exact loadAllVoices_isSome store voices es hlv

theorem zipAdd_getD (as bs : List ℚ) (h : as.length = bs.length) (i : ℕ) :
    (as.zipWith (fun x y => x + y) bs).getD i 0 =
      as.getD i 0 + bs.getD i 0 := by
  induction as generalizing bs i with
  | nil =>
      cases bs with
      | nil => simp
      | cons b bs => simp at h
  | cons a as ih =>
      cases bs with
      | nil => simp at h
      | cons b bs =>
          cases i with
          | zero => simp
          | succ j => simpa using ih bs (by simpa using h) j

/-- The running `zipWith (+)` fold used by `torch.stack` + `torch.mean`
computes the column-wise sums of equal-length tensors. -/
theorem foldl_zipAdd_spec (rest : List Emb) :
    ∀ (t : Emb), (∀ u ∈ rest, u.length = t.length) →
      ((rest.foldl (fun acc u => acc.zipWith (fun x y => x + y) u) t).length
        = t.length) ∧
      ∀ i, (rest.foldl (fun acc u => acc.zipWith (fun x y => x + y) u) t).getD
          i 0 = t.getD i 0 + ((rest.map (fun u => u.getD i 0)).sum) := by
  induction rest with
  | nil => intro t h; simp
  | cons u rest ih =>
      intro t h
      have hu : u.length = t.length := h u (List.mem_cons_self u rest)
      have hz : (t.zipWith (fun x y => x + y) u).length = t.length := by
        rw [List.length_zipWith, hu, Nat.min_self]
      obtain ⟨il, ig⟩ := ih (t.zipWith (fun x y => x + y) u)
        (fun w hw => by rw [hz]; exact h w (List.mem_cons_of_mem u hw))
      constructor
      · simp only [List.foldl_cons]
        rw [il, hz]
      · intro i
        simp only [List.foldl_cons, List.map_cons, List.sum_cons]
        rw [ig i, zipAdd_getD t u hu.symm i]
        ring

theorem map_div_getD (l : List ℚ) (n : ℚ) (i : ℕ) :
    (l.map (fun x => x / n)).getD i 0 = l.getD i 0 / n := by
  rcases Nat.lt_or_ge i l.length with h | h
  · rw [List.getD_eq_getElem _ _ (by simpa using h),
      List.getD_eq_getElem _ _ h, List.getElem_map]
  · rw [List.getD_eq_default _ _ (by simpa using h),
      List.getD_eq_default _ _ h, zero_div]

/-- `torch.mean(torch.stack ts, dim=0)` on a non-empty list of equal-shape
tensors produces the element-wise mean. -/
theorem stackMean_spec (ts : List Emb) (L : ℕ) (hne : ts ≠ [])
    (hlen : ∀ t ∈ ts, t.length = L) :
    ∃ m, stackMean ts = some m ∧ m.length = L ∧
      ∀ i, m.getD i 0 =
        ((ts.map (fun t => t.getD i 0)).sum) / (ts.length : ℚ) := by
  match ts, hne with
  | t :: rest, _ =>
    have ht : t.length = L := hlen t (List.mem_cons_self t rest)
    have hall : rest.all (fun u => u.length = t.length) = true := by
      rw [List.all_eq_true]
      intro u hu
      simp [hlen u (List.mem_cons_of_mem t hu), ht]
    obtain ⟨flen, fget⟩ := foldl_zipAdd_spec rest t
      (fun u hu => by rw [hlen u (List.mem_cons_of_mem t hu), ht])
    have hsm : stackMean (t :: rest) =
        some ((rest.foldl (fun acc u => acc.zipWith (fun x y => x + y) u)
          t).map (fun x => x / ((t :: rest).length : ℚ))) := by
      simp only [stackMean]
      rw [hall]
      simp
    refine ⟨_, hsm, ?_, ?_⟩
    · rw [List.length_map, flen, ht]
    · intro i
      rw [map_div_getD, fget i]
      simp

/-! ## Claim theorems: voice combination -/

/-- C5: `combine_voices` rejects fewer than 2 names with the `ValueError`;
with `n ≥ 2` names whose embeddings all load (and share a shape), the result
is the `"_"`-joined name, the store now maps that name's path to the
element-wise mean of the `n` source embeddings, and the `_load_voice` LRU
cache is untouched (the loads bypass it: the method reads the store
directly with `torch.load`). -/
theorem combine_voices_mean (store : Store) (cache : LRUCache)
    (voices : List String) (embOf : String → Emb) (L : ℕ)
    (hload : ∀ v ∈ voices, store (voiceFilePath v) = some (embOf v))
    (hshape : ∀ v ∈ voices, (embOf v).length = L) :
    (voices.length < 2 →
      (combineVoices store cache voices).result = .error .tooFew) ∧
    (2 ≤ voices.length →
      (combineVoices store cache voices).result =
        .ok (String.intercalate "_" voices) ∧
      ∃ m, (combineVoices store cache voices).store
          (voiceFilePath (String.intercalate "_" voices)) = some m ∧
        m.length = L ∧
        ∀ i, m.getD i 0 =
          ((voices.map (fun v => (embOf v).getD i 0)).sum) /
            (voices.length : ℚ)) ∧
    (combineVoices store cache voices).cache = cache := by
  refine ⟨?_, ?_, ?_⟩
  · intro h
    unfold combineVoices
    rw [if_pos h]
  · intro h2
    have hnlt : ¬ voices.length < 2 := Nat.not_lt.mpr h2
    have hlv : loadAllVoices store voices = .ok (voices.map embOf) :=
      loadAllVoices_ok store voices embOf hload
    have hne : voices.map embOf ≠ [] := by
      intro hnil
      rw [List.map_eq_nil_iff] at hnil
      subst hnil
      simp at h2
    obtain ⟨m, hsm, hmlen, hmget⟩ := stackMean_spec (voices.map embOf) L hne
      (by intro t ht; obtain ⟨v, hv, rfl⟩ := List.mem_map.mp ht
          exact hshape v hv)
    constructor
    · unfold combineVoices
      rw [if_neg hnlt]
      simp only [hlv, hsm]
    · refine ⟨m, ?_, hmlen, ?_⟩
      · unfold combineVoices
        rw [if_neg hnlt]
        simp only [hlv, hsm, if_pos]
      · intro i
        rw [hmget i, List.map_map, List.length_map]
        rfl
  · unfold combineVoices
    repeat' split
    all_goals rfl

/-- C10: `combine_voices` is atomic with respect to the voice store on a
load failure: if any named voice fails to load, the call fails with the
`ValueError` naming a failing voice, the store is unchanged (nothing was
saved), `torch.save` was not attempted — and in general `torch.save` is
attempted only when every named voice has loaded. -/
theorem combine_voices_atomic_on_load_failure (store : Store)
    (cache : LRUCache) (voices : List String)
    (hlen : 2 ≤ voices.length)
    (hfail : ∃ v ∈ voices, store (voiceFilePath v) = none) :
    (∃ v ∈ voices, store (voiceFilePath v) = none ∧
      (combineVoices store cache voices).result = .error (.loadFailed v)) ∧
    (combineVoices store cache voices).store = store ∧
    (combineVoices store cache voices).saveAttempted = false ∧
    ∀ (store2 : Store) (cache2 : LRUCache),
      (combineVoices store2 cache2 voices).saveAttempted = true →
      ∀ v ∈ voices, (store2 (voiceFilePath v)).isSome := by
  have hnlt : ¬ voices.length < 2 := Nat.not_lt.mpr hlen
  obtain ⟨v, hv, hn, herr⟩ := loadAllVoices_error_of_fail store voices hfail
  refine ⟨⟨v, hv, hn, ?_⟩, ?_, ?_, ?_⟩
  · unfold combineVoices
    rw [if_neg hnlt]
    simp only [herr]
  · unfold combineVoices
    rw [if_neg hnlt]
    simp only [herr]
  · unfold combineVoices
    rw [if_neg hnlt]
    simp only [herr]
  · intro store2 cache2 hsave
    exact saveAttempted_implies_all_loaded store2 cache2 voices hsave

/-- Concrete witness for C5: combining `["a", "b"]` with embeddings `[2,2]`
and `[4,4]` produces the saved voice `"a_b"` with embedding `[3,3]`; a
single-name call is rejected. -/
theorem combine_voices_mean_witness :
    (combineVoices wStoreAB wCache ["a", "b"]).result = .ok "a_b" ∧
    (combineVoices wStoreAB wCache ["a", "b"]).store (voiceFilePath "a_b") =
      some [3, 3] ∧
    (combineVoices wStoreAB wCache ["a", "b"]).cache = wCache ∧
    (combineVoices wStoreAB wCache ["a"]).result = .error .tooFew := by
  have h := combine_voices_mean wStoreAB wCache ["a", "b"]
    (fun v => if v = "a" then [2, 2] else [4, 4]) 2 (by decide) (by decide)
  refine ⟨?_, ?_, h.2.2, ?_⟩
  · have h1 := (h.2.1 (by decide)).1
    rw [show String.intercalate "_" ["a", "b"] = "a_b" from by decide] at h1
    exact h1
  · have hb : (voiceFilePath "b" = voiceFilePath "a") = False := by
      simp
      decide
    have hsi : String.intercalate "_" ["a", "b"] = "a_b" := by decide
    simp only [combineVoices, loadAllVoices, wStoreAB, stackMean, hsi, hb]
    norm_num
  · exact (combine_voices_mean wStoreAB wCache ["a"]
      (fun v => if v = "a" then [2, 2] else [4, 4]) 2 (by decide)
      (by decide)).1 (by decide)

/-- Concrete witness for C10: combining `["a", "zz"]` where `"zz"` has no
stored embedding fails with the wrapping `ValueError`, leaves the store
unchanged (the combined name is absent) and never attempts a save. -/
theorem combine_voices_atomic_witness :
    (combineVoices wStoreAB wCache ["a", "zz"]).result =
      .error (.loadFailed "zz") ∧
    (combineVoices wStoreAB wCache ["a", "zz"]).store
      (voiceFilePath "a_zz") = none ∧
    (combineVoices wStoreAB wCache ["a", "zz"]).saveAttempted = false := by
  obtain ⟨⟨v, hv, hn, herr⟩, hst, hsa, -⟩ :=
    combine_voices_atomic_on_load_failure wStoreAB wCache ["a", "zz"]
      (by decide) ⟨"zz", by decide, by decide⟩
  have hvz : v = "zz" := by
    rcases List.mem_cons.mp hv with h1 | h1
    · subst h1
      exact absurd hn (by decide)
    · rw [List.mem_singleton] at h1
      exact h1
  refine ⟨?_, ?_, hsa⟩
  · rw [hvz] at herr
    exact herr
  · rw [hst]
    decide

/-! ## Lemmas about the LRU voice cache -/

theorem loadAll_append (store : Store) (c : LRUCache) (l1 l2 : List String) :
    loadAll store c (l1 ++ l2) = loadAll store (loadAll store c l1) l2 := by
  induction l1 generalizing c with
  | nil => rfl
  | cons p ps ih =>
      simp only [List.cons_append, loadAll]
      cases loadVoice store c p with
      | none => exact ih c
      | some x =>
          obtain ⟨v, c2, r⟩ := x
          exact ih c2

theorem find?_pair_none (l : List (String × Emb)) (p : String)
    (h : ∀ kv ∈ l, kv.1 ≠ p) :
    l.find? (fun e => e.1 == p) = none := by
  rw [List.find?_eq_none]
  intro kv hkv
  simp only [beq_iff_eq]
  exact h kv hkv

/-- Loading a path that just loaded (and whose entry was not immediately
evicted, i.e. the capacity is at least 1) is a hit: the identical embedding
value is returned and storage is not re-read. -/
theorem loadVoice_reload (store : Store) (c : LRUCache) (p : String)
    (v : Emb) (c2 : LRUCache) (r : Bool) (hcap : 1 ≤ c.capacity)
    (h : loadVoice store c p = some (v, c2, r)) :
    ∃ c3, loadVoice store c2 p = some (v, c3, false) := by
  have hhead : ∃ tail, c2.entries = (p, v) :: tail := by
    unfold loadVoice at h
    cases hf : c.entries.find? (fun e => e.1 == p) with
    | some kv =>
        obtain ⟨k, w⟩ := kv
        rw [hf] at h
        simp only [Option.some.injEq, Prod.mk.injEq] at h
        obtain ⟨hv, hc2, -⟩ := h
        subst hv
        rw [← hc2]
        exact ⟨_, rfl⟩
    | none =>
        rw [hf] at h
        cases hs : store p with
        | none => rw [hs] at h; exact Option.noConfusion h
        | some w =>
            rw [hs] at h
            simp only [Option.some.injEq, Prod.mk.injEq] at h
            obtain ⟨hv, hc2, -⟩ := h
            subst hv
            rw [← hc2]
            simp only []
            split
            · rename_i hlt
              cases he : c.entries with
              | nil =>
                  rw [he] at hlt
                  simp at hlt
                  omega
              | cons e es => rw [List.dropLast_cons₂]; exact ⟨_, rfl⟩
            · exact ⟨_, rfl⟩
  obtain ⟨tail, htail⟩ := hhead
  have hgoal : loadVoice store c2 p =
      some (v, { c2 with
        entries := (p, v) :: c2.entries.eraseP (fun e => e.1 == p) },
        false) := by
    unfold loadVoice
    rw [htail, List.find?_cons_of_pos _ (by simp)]
  exact ⟨_, hgoal⟩

/-- Loading distinct fresh paths into an empty cache, while staying within
capacity, fills it with one entry per path, most-recently-used first and no
eviction. -/
theorem loadAll_fill (store : Store) (cap : ℕ) (valOf : String → Emb)
    (ps : List String) (hnd : ps.Nodup)
    (hst : ∀ p ∈ ps, store p = some (valOf p))
    (hlen : ps.length ≤ cap) :
    loadAll store (LRUCache.empty cap) ps =
      ⟨cap, ps.reverse.map (fun p => (p, valOf p))⟩ := by
  induction ps using List.reverseRecOn with
  | nil => simp [loadAll, LRUCache.empty]
  | append_singleton qs p ih =>
      have hqnd : qs.Nodup := (List.nodup_append.mp hnd).1
      have hpq : p ∉ qs := by
        intro hp
        exact (List.disjoint_of_nodup_append hnd) hp (List.mem_singleton_self p)
      have hqst : ∀ q ∈ qs, store q = some (valOf q) :=
        fun q hq => hst q (List.mem_append_left _ hq)
      have hq1 : qs.length + 1 ≤ cap := by
        have h2 := hlen
        rw [List.length_append, List.length_singleton] at h2
        omega
      have hqlen : qs.length ≤ cap := by omega
      rw [loadAll_append, ih hqnd hqst hqlen]
      have hfind : (qs.reverse.map (fun q => (q, valOf q))).find?
          (fun e => e.1 == p) = none := by
        apply find?_pair_none
        intro kv hkv
        obtain ⟨q, hq, rfl⟩ := List.mem_map.mp hkv
        intro hqp
        have hqp2 : q = p := hqp
        rw [hqp2] at hq
        exact hpq (List.mem_reverse.mp hq)
      have hsp : store p = some (valOf p) :=
        hst p (List.mem_append_right _ (List.mem_singleton_self p))
      have hnlt : ¬ (cap < qs.length + 1) := by omega

      simp only [loadAll, loadVoice, hfind, hsp, List.length_cons,
        List.length_map, List.length_reverse, hnlt, if_false]
      simp

/-- Loading `capacity + 1` distinct fresh paths into an empty cache evicts
exactly the first-loaded (least-recently-used) path: the cache then holds
precisely the last `capacity` paths, most-recently-used first. -/
theorem lru_eviction (store : Store) (cap : ℕ) (hcap : 1 ≤ cap)
    (ps : List String) (hnd : ps.Nodup)
    (hst : ∀ p ∈ ps, (store p).isSome)
    (hlen : ps.length = cap + 1) :
    (loadAll store (LRUCache.empty cap) ps).keys = (ps.drop 1).reverse := by
  classical
  set valOf : String → Emb := fun q => (store q).getD [] with hval
  have hst2 : ∀ p ∈ ps, store p = some (valOf p) := by
    intro p hp
    obtain ⟨v, hv⟩ := Option.isSome_iff_exists.mp (hst p hp)
    rw [hval]
    simp [hv]
  rcases ps.eq_nil_or_concat' with hnil | ⟨qs, p, hps⟩
  · rw [hnil] at hlen; simp at hlen
  subst hps
  have hqlen : qs.length = cap := by
    rw [List.length_append, List.length_singleton] at hlen
    omega
  have hqnd : qs.Nodup := (List.nodup_append.mp hnd).1
  have hpq : p ∉ qs := by
    intro hp
    exact (List.disjoint_of_nodup_append hnd) hp (List.mem_singleton_self p)
  have hqst : ∀ q ∈ qs, store q = some (valOf q) :=
    fun q hq => hst2 q (List.mem_append_left _ hq)
  rw [loadAll_append, loadAll_fill store cap valOf qs hqnd hqst (le_of_eq hqlen)]
  cases qs with
  | nil => rw [List.length_nil] at hqlen; omega
  | cons q0 qs2 =>
      have hfind : (((q0 :: qs2).reverse.map (fun q => (q, valOf q)))).find?
          (fun e => e.1 == p) = none := by
        apply find?_pair_none
        intro kv hkv
        obtain ⟨q, hq, rfl⟩ := List.mem_map.mp hkv
        intro hqp
        have hqp2 : q = p := hqp
        rw [hqp2] at hq
        exact hpq (List.mem_reverse.mp hq)
      have hsp : store p = some (valOf p) :=
        hst2 p (List.mem_append_right _ (List.mem_singleton_self p))
      have hq2 : qs2.length + 1 = cap := by simpa using hqlen
      simp only [loadAll, loadVoice, hfind, hsp, List.length_cons,
        List.length_map, List.length_reverse]
      rw [if_pos (show cap < qs2.length + 1 + 1 by omega)]
      unfold LRUCache.keys
      simp only [List.reverse_cons, List.map_append, List.map_cons,
        List.map_nil]
      rw [← List.cons_append, List.dropLast_concat, List.drop_one]
      simp only [List.map_cons, List.map_map, List.reverse_append,
        List.tail_cons, List.reverse_cons, List.reverse_nil, List.nil_append,
        List.singleton_append, List.cons.injEq, true_and]
      rw [show (Prod.fst ∘ fun p => (p, valOf p)) = id from rfl, List.map_id]
      show p :: qs2.reverse = (qs2 ++ [p]).reverse
      rw [List.reverse_append]
      rfl

/-- A cache hit re-orders recency and thereby changes which entry a later
over-capacity insert evicts: with capacity 2, the sequence
load p, load q, load p (hit), load r keeps `p` and evicts `q`, whereas
without the hit the same final load evicts `p`. -/
theorem lru_hit_changes_eviction (store : Store) (p q r : String)
    (vp vq vr : Emb) (hpq : p ≠ q) (hpr : p ≠ r) (hqr : q ≠ r)
    (hp : store p = some vp) (hq : store q = some vq)
    (hr : store r = some vr) :
    (loadAll store (LRUCache.empty 2) [p, q, p, r]).keys = [r, p] ∧
    (loadAll store (LRUCache.empty 2) [p, q, r]).keys = [r, q] := by
  have bpq : (p == q) = false := by simp [hpq]
  have bqp : (q == p) = false := by simp [Ne.symm hpq]
  have bpr : (p == r) = false := by simp [hpr]
  have bqr : (q == r) = false := by simp [hqr]
  have bpp : (p == p) = true := by simp
  have s1 : loadVoice store (LRUCache.empty 2) p =
      some (vp, ⟨2, [(p, vp)]⟩, true) := by
    simp [loadVoice, LRUCache.empty, hp]
  have s2 : loadVoice store ⟨2, [(p, vp)]⟩ q =
      some (vq, ⟨2, [(q, vq), (p, vp)]⟩, true) := by
    simp [loadVoice, List.find?_cons, bpq, hq]
  have s3 : loadVoice store ⟨2, [(q, vq), (p, vp)]⟩ p =
      some (vp, ⟨2, [(p, vp), (q, vq)]⟩, false) := by
    simp [loadVoice, List.find?_cons, List.eraseP_cons, bqp, bpp]
  have s4 : loadVoice store ⟨2, [(p, vp), (q, vq)]⟩ r =
      some (vr, ⟨2, [(r, vr), (p, vp)]⟩, true) := by
    simp [loadVoice, List.find?_cons, bpr, bqr, hr, List.dropLast]
  have s5 : loadVoice store ⟨2, [(q, vq), (p, vp)]⟩ r =
      some (vr, ⟨2, [(r, vr), (q, vq)]⟩, true) := by
    simp [loadVoice, List.find?_cons, bpr, bqr, hr, List.dropLast]
  constructor
  · simp only [loadAll, s1, s2, s3, s4]
    rfl
  · simp only [loadAll, s1, s2, s5]
    rfl

/-! ## Claim theorem: the voice cache -/

/-- C8: the `_load_voice` cache is memoized by exact path string with a
fixed capacity: (a) after any successful load, re-loading the same path is
a hit returning the identical embedding with no storage read (capacity
permitting, i.e. capacity at least 1); (b) loading `capacity + 1` distinct
stored paths into an empty cache leaves exactly the last `capacity` paths
cached, most-recently-used first — precisely the first-loaded
(least-recently-used) path is evicted; (c) a hit moves its entry to
most-recently-used, and this changes subsequent eviction order (with
capacity 2, load p, q, p, r evicts q, while load p, q, r evicts p). -/
theorem voice_cache_lru_behavior (store : Store) :
    (∀ (c : LRUCache) (p : String) (v : Emb) (c2 : LRUCache) (r : Bool),
      1 ≤ c.capacity →
      loadVoice store c p = some (v, c2, r) →
      ∃ c3, loadVoice store c2 p = some (v, c3, false)) ∧
    (∀ (cap : ℕ) (ps : List String), 1 ≤ cap → ps.Nodup →
      (∀ p ∈ ps, (store p).isSome) → ps.length = cap + 1 →
      (loadAll store (LRUCache.empty cap) ps).keys = (ps.drop 1).reverse ∧
      ∀ p0, ps.head? = some p0 →
        p0 ∉ (loadAll store (LRUCache.empty cap) ps).keys) ∧
    (∀ (c : LRUCache) (p : String) (kv : String × Emb),
      c.entries.find? (fun e => e.1 == p) = some kv →
      loadVoice store c p = some (kv.2,
        { c with
          entries := (p, kv.2) :: c.entries.eraseP (fun e => e.1 == p) },
        false)) ∧
    (∀ (p q r : String) (vp vq vr : Emb), p ≠ q → p ≠ r → q ≠ r →
      store p = some vp → store q = some vq → store r = some vr →
      (loadAll store (LRUCache.empty 2) [p, q, p, r]).keys = [r, p] ∧
      (loadAll store (LRUCache.empty 2) [p, q, r]).keys = [r, q]) := by
  refine ⟨?_, ?_, ?_, ?_⟩
  · intro c p v c2 r hcap h
    exact loadVoice_reload store c p v c2 r hcap h
  · intro cap ps hcap hnd hst hlen
    have hkeys := lru_eviction store cap hcap ps hnd hst hlen
    refine ⟨hkeys, ?_⟩
    intro p0 hp0
    rw [hkeys]
    cases ps with
    | nil => simp at hp0
    | cons a rest =>
        simp only [List.head?_cons, Option.some.injEq] at hp0
        subst hp0
        rw [List.drop_one, List.tail_cons, List.mem_reverse]
        exact (List.nodup_cons.mp hnd).1
  · intro c p kv hf
    obtain ⟨k, w⟩ := kv
    unfold loadVoice
    rw [hf]
  · intro p q r vp vq vr hpq hpr hqr hp hq hr
    exact lru_hit_changes_eviction store p q r vp vq vr hpq hpr hqr hp hq hr

/-- Concrete witness for C8: with three stored paths and capacity 2,
re-loading a just-loaded path is a hit with no storage read; loading the
three distinct paths leaves the last two cached and evicts the first; and
the hit sequence p1, p2, p1, p3 retains p1 and evicts p2 instead. -/
theorem voice_cache_lru_behavior_witness :
    (∃ c3, loadVoice wStore3 ⟨8, [("p1", [1])]⟩ "p1" =
      some ([1], c3, false)) ∧
    (loadAll wStore3 (LRUCache.empty 2) ["p1", "p2", "p3"]).keys =
      ["p3", "p2"] ∧
    "p1" ∉ (loadAll wStore3 (LRUCache.empty 2) ["p1", "p2", "p3"]).keys ∧
    (loadAll wStore3 (LRUCache.empty 2) ["p1", "p2", "p1", "p3"]).keys =
      ["p3", "p1"] := by
  obtain ⟨ha, hb, hc, hd⟩ := voice_cache_lru_behavior wStore3
  refine ⟨?_, ?_, ?_, ?_⟩
  · exact ha (LRUCache.empty 8) "p1" [1] ⟨8, [("p1", [1])]⟩ true
      (by decide) rfl
  · exact ((hb 2 ["p1", "p2", "p3"] (by decide) (by decide) (by decide)
      (by decide)).1).trans rfl
  · exact (hb 2 ["p1", "p2", "p3"] (by decide) (by decide) (by decide)
      (by decide)).2 "p1" rfl
  · exact ((hd "p1" "p2" "p3" [1] [1] [1] (by decide) (by decide)
      (by decide) (by decide) (by decide) (by decide)).1).trans rfl

end TTS
